import Mathlib

/-!
Shallow embedding of src/inotify/binding/binding.c (python-inotify C binding).

The module exposes four operations over an inotify file descriptor; the one
with algorithmic content is binding_get_events: an optional-timeout select,
a single read into a fixed 4096-byte stack buffer, and a decode loop over
the bytes read that produces Python tuples (wd, mask, cookie, name).

Modelling choices, all taken from the C source:
- bytes are Nat (valid buffers carry values < 256); a buffer is a List Nat;
- the struct inotify_event header is 16 bytes: wd, mask, cookie, len, each a
  32-bit little-endian field read with readU32;
- Py_BuildValue "iiis" passes the uint32_t mask and cookie through a C int,
  so the exposed values are the two's-complement reinterpretation toInt32;
- the name is read as a NUL-terminated C string (cStr) starting right after
  the header, or taken to be "" when len is 0; Python 2 str is a byte
  string, so a name is a List Nat as well;
- the decode loop runs while the record start pointer is below buffer+length;
  it is written with an explicit fuel argument (structural recursion) and
  decodeLoop_fuel below shows any fuel of at least L - off gives the same
  result, so decodeFrom buf L = decodeLoop buf L L 0 is the loop's semantics;
- system calls (select, read, inotify_add_watch) are oracles supplied by an
  environment record, and each call made is logged in a trace of Sys entries;
- CPython behaviour of the argument plumbing is embedded faithfully: with
  the timeout argument omitted, timeout_o stays NULL, NULL differs from
  Py_None, and PyFloat_AsDouble(NULL) raises the PyErr_BadArgument
  TypeError; an explicit None leaves timeout_p NULL so select blocks without
  a bound; a float timeout is converted with two C casts to int, which
  truncate toward zero.
-/

namespace Inotify

/-! ## Constants (sys/inotify.h and binding.c) -/

def BUF_LENGTH : Nat := 4096

def IN_ACCESS : Nat := 0x00000001
def IN_MODIFY : Nat := 0x00000002
def IN_ATTRIB : Nat := 0x00000004
def IN_CLOSE_WRITE : Nat := 0x00000008
def IN_CLOSE_NOWRITE : Nat := 0x00000010
def IN_OPEN : Nat := 0x00000020
def IN_MOVED_FROM : Nat := 0x00000040
def IN_MOVED_TO : Nat := 0x00000080
def IN_CREATE : Nat := 0x00000100
def IN_DELETE : Nat := 0x00000200
def IN_DELETE_SELF : Nat := 0x00000400
def IN_MOVE_SELF : Nat := 0x00000800
def IN_ONESHOT : Nat := 0x80000000

def IN_ALL_EVENTS : Nat :=
  IN_ACCESS ||| IN_MODIFY ||| IN_ATTRIB ||| IN_CLOSE_WRITE ||| IN_CLOSE_NOWRITE |||
  IN_OPEN ||| IN_MOVED_FROM ||| IN_MOVED_TO ||| IN_CREATE ||| IN_DELETE |||
  IN_DELETE_SELF ||| IN_MOVE_SELF

/-! ## 32-bit integer reinterpretation -/

/-- C conversion of an int value to uint32_t (two's-complement wrap). -/
def toUInt32 (x : Int) : Nat := (x % (2 ^ 32 : Int)).toNat

/-- Reading a 32-bit wire value through a C int varargs slot, as
Py_BuildValue format "i" does: two's-complement reinterpretation. -/
def toInt32 (u : Nat) : Int := if u < 2 ^ 31 then (u : Int) else (u : Int) - 2 ^ 32

/-! ## Byte buffers -/

/-- A byte of the stack buffer; reads beyond the modelled region give 0. -/
def byteAt (buf : List Nat) (i : Nat) : Nat := buf.getD i 0

/-- A 32-bit little-endian field of struct inotify_event. -/
def readU32 (buf : List Nat) (i : Nat) : Nat :=
  byteAt buf i + 256 * byteAt buf (i + 1) + 65536 * byteAt buf (i + 2) +
    16777216 * byteAt buf (i + 3)

/-- The NUL-terminated C string at the head of a byte list, as read by
Py_BuildValue format "s" from event_p->name. -/
def cStr : List Nat → List Nat
  | [] => []
  | b :: bs => if b = 0 then [] else b :: cStr bs

/-- The C string starting at offset i of the buffer. -/
def readCStr (buf : List Nat) (i : Nat) : List Nat := cStr (buf.drop i)

/-! ## Decoded events -/

/-- One decoded event tuple as built by Py_BuildValue("iiis", ...). -/
structure Event where
  wd : Int
  mask : Int
  cookie : Int
  name : List Nat
deriving DecidableEq

/-- The decode loop of binding_get_events: while the record pointer is below
buffer + length, read the 16-byte header, read the name (or take "" when the
len field is 0), and advance by 16 + len.  The fuel argument makes the
recursion structural; decodeLoop_fuel shows fuel at least L - off is enough,
so the fuel plays no role in the semantics. -/
def decodeLoop (buf : List Nat) (L : Nat) : Nat → Nat → List Event
  | 0, _ => []
  | fuel + 1, off =>
    if off < L then
      { wd := toInt32 (readU32 buf off)
        mask := toInt32 (readU32 buf (off + 4))
        cookie := toInt32 (readU32 buf (off + 8))
        name := if readU32 buf (off + 12) = 0 then [] else readCStr buf (off + 16) } ::
      decodeLoop buf L fuel (off + 16 + readU32 buf (off + 12))
    else []

/-- The full decode of the first L bytes of the buffer. -/
def decodeFrom (buf : List Nat) (L : Nat) : List Event := decodeLoop buf L L 0

/-! ## Python-level results and errors -/

/-- The payload of a raised Python exception: either the errno captured by
PyErr_SetFromErrno, or a literal message set with PyErr_SetString /
PyErr_BadArgument. -/
inductive ErrMsg where
  | fromErrno (errno : Nat)
  | literal (s : String)
deriving DecidableEq

/-- A raised Python exception: its class name and its payload. -/
structure PyExc where
  typ : String
  msg : ErrMsg
deriving DecidableEq

/-- PyErr_SetFromErrno(PyExc_IOError): the shape the spec calls
ResourceError. -/
def resourceError (errno : Nat) : PyExc :=
  { typ := "IOError", msg := ErrMsg.fromErrno errno }

/-- PyErr_SetString(PyExc_IOError, "event buffer too small"): the shape the
spec calls BufferTooSmallError. -/
def bufTooSmallExc : PyExc :=
  { typ := "IOError", msg := ErrMsg.literal "event buffer too small" }

/-- PyErr_BadArgument(), raised by PyFloat_AsDouble(NULL). -/
def badArgumentExc : PyExc :=
  { typ := "TypeError", msg := ErrMsg.literal "bad argument type for built-in operation" }

/-- Outcome of a binding call: a value, or a raised exception. -/
inductive PyRes (α : Type) where
  | ok (val : α)
  | err (e : PyExc)
deriving DecidableEq

/-! ## System-call trace -/

/-- One system call performed by the binding. -/
inductive Sys where
  | sel (nfds : Int) (timeout : Option (Int × Int))
  | rd (fd : Int) (count : Nat)
  | addw (fd : Int) (path : String) (mask : Nat)
deriving DecidableEq

/-! ## Timeout argument handling -/

/-- The second argument of get_events as the caller supplied it: omitted,
an explicit None, or a float value (modelled as a rational). -/
inductive TimeoutArg where
  | absent
  | noneArg
  | floatArg (t : ℚ)

/-- Truncation toward zero, the C float-to-int conversion. -/
def truncRat (q : ℚ) : Int := if 0 ≤ q then ⌊q⌋ else -⌊-q⌋

/-- The timeval built from a float timeout:
tv_sec = (int)timeout_d and tv_usec = (int)(1000000.0 * (timeout_d - tv_sec)). -/
def timeoutStruct (t : ℚ) : Int × Int :=
  let sec := truncRat t
  (sec, truncRat (1000000 * (t - (sec : ℚ))))

/-- The timeout plumbing of binding_get_events.  timeout_o is initialised to
NULL and only replaced when a second argument is parsed; the guard compares
it against Py_None, so an omitted argument (NULL) takes the conversion
branch and PyFloat_AsDouble(NULL) raises the PyErr_BadArgument TypeError. -/
def parseTimeoutArg : TimeoutArg → PyRes (Option (Int × Int))
  | .absent => .err badArgumentExc
  | .noneArg => .ok none
  | .floatArg t => .ok (some (timeoutStruct t))

/-! ## get_events -/

/-- Oracle results of the select and read system calls in one call of
get_events: the return values and errno of each, the bytes the read
deposits at the start of the stack buffer, and the prior (stale) contents
of the 4096-byte stack buffer. -/
structure Env where
  selectRes : Int
  selectErrno : Nat
  readRes : Int
  readErrno : Nat
  readData : List Nat
  stale : List Nat

/-- The stack buffer contents after the read: the first readRes bytes come
from the read, the rest keep their stale values. -/
def afterRead (env : Env) : List Nat :=
  env.readData.take env.readRes.toNat ++ env.stale.drop env.readRes.toNat

/-- binding_get_events: parse the timeout argument, select on the
descriptor, return the IOError from errno when select fails, an empty list
when it times out; otherwise read once into the 4096-byte buffer, return
the IOError from errno when the read fails, the "event buffer too small"
IOError when it returns 0 bytes, and otherwise the decoded events. -/
def getEvents (env : Env) (fd : Int) (targ : TimeoutArg) :
    PyRes (List Event) × List Sys :=
  match parseTimeoutArg targ with
  | .err e => (.err e, [])
  | .ok tp =>
    if env.selectRes = -1 then
      (.err (resourceError env.selectErrno), [Sys.sel (fd + 1) tp])
    else if env.selectRes = 0 then
      (.ok [], [Sys.sel (fd + 1) tp])
    else if env.readRes = -1 then
      (.err (resourceError env.readErrno), [Sys.sel (fd + 1) tp, Sys.rd fd BUF_LENGTH])
    else if env.readRes = 0 then
      (.err bufTooSmallExc, [Sys.sel (fd + 1) tp, Sys.rd fd BUF_LENGTH])
    else
      (.ok (decodeFrom (afterRead env) env.readRes.toNat),
       [Sys.sel (fd + 1) tp, Sys.rd fd BUF_LENGTH])

/-! ## add_watch -/

/-- Oracle result of the inotify_add_watch system call. -/
structure AwEnv where
  awRes : Int
  awErrno : Nat

/-- The mask binding_add_watch passes to the kernel: the uint32_t variable
is initialised to IN_ALL_EVENTS and only overwritten when the optional
third argument is parsed (format "is|i"). -/
def effectiveMask : Option Int → Nat
  | none => IN_ALL_EVENTS
  | some m => toUInt32 m

/-- binding_add_watch: one inotify_add_watch call; -1 becomes the IOError
from errno, otherwise the watch descriptor is returned. -/
def addWatch (env : AwEnv) (fd : Int) (path : String) (maskArg : Option Int) :
    PyRes Int × List Sys :=
  let mask := effectiveMask maskArg
  if env.awRes = -1 then
    (.err (resourceError env.awErrno), [Sys.addw fd path mask])
  else
    (.ok env.awRes, [Sys.addw fd path mask])

/-! ## Wire-record encoder (spec section 8, for the round-trip property) -/

/-- A record to be laid out on the wire, with the field values as the
binding exposes them (int32 range, byte-string name). -/
structure WireRec where
  wd : Int
  mask : Int
  cookie : Int
  name : List Nat

/-- Little-endian bytes of a 32-bit value. -/
def le32 (u : Nat) : List Nat :=
  [u % 256, u / 256 % 256, u / 65536 % 256, u / 16777216 % 256]

/-- The len field of an encoded record: 0 for an empty name, otherwise the
name bytes plus the NUL terminator. -/
def nameLen (name : List Nat) : Nat := if name = [] then 0 else name.length + 1

/-- The name bytes of an encoded record. -/
def nameField (name : List Nat) : List Nat := if name = [] then [] else name ++ [0]

/-- One wire record: 16-byte header followed by the name field. -/
def encodeRecord (r : WireRec) : List Nat :=
  le32 (toUInt32 r.wd) ++ le32 (toUInt32 r.mask) ++ le32 (toUInt32 r.cookie) ++
  le32 (nameLen r.name) ++ nameField r.name

/-- Back-to-back wire records. -/
def encodeRecords (rs : List WireRec) : List Nat := (rs.map encodeRecord).flatten

/-- Well-formed wire record: fields in int32 range, name bytes nonzero and
below 256, name length representable in the 32-bit len field. -/
def validRec (r : WireRec) : Prop :=
  -2 ^ 31 ≤ r.wd ∧ r.wd < 2 ^ 31 ∧
  -2 ^ 31 ≤ r.mask ∧ r.mask < 2 ^ 31 ∧
  -2 ^ 31 ≤ r.cookie ∧ r.cookie < 2 ^ 31 ∧
  r.name.length + 1 < 2 ^ 32 ∧
  ∀ b ∈ r.name, 0 < b ∧ b < 256

instance (r : WireRec) : Decidable (validRec r) := by
  unfold validRec; infer_instance

/-- The event the binding should produce for a wire record. -/
def recEvent (r : WireRec) : Event :=
  { wd := r.wd, mask := r.mask, cookie := r.cookie, name := r.name }

/-! ## Record-fit predicate (spec-side notion of a fully in-bounds buffer) -/

/-- Whether some byte among the k bytes starting at offset i is NUL. -/
def hasNulWithin (buf : List Nat) (i k : Nat) : Bool :=
  (List.range k).any (fun j => byteAt buf (i + j) == 0)

/-- Every record reachable by the decode loop lies entirely within the
first L bytes: its header and name field fit below L and a nonempty name
has its NUL terminator inside the name field. -/
def recordsFitLoop (buf : List Nat) (L : Nat) : Nat → Nat → Bool
  | 0, _ => true
  | fuel + 1, off =>
    if off < L then
      decide (off + 16 + readU32 buf (off + 12) ≤ L) &&
      (decide (readU32 buf (off + 12) = 0) ||
        hasNulWithin buf (off + 16) (readU32 buf (off + 12))) &&
      recordsFitLoop buf L fuel (off + 16 + readU32 buf (off + 12))
    else true

/-! ## Concrete inputs used by counterexamples and witnesses -/

/-- A buffer whose single record is truncated at length 8: bytes 8..15 lie
beyond the 8 valid bytes. -/
def cb1 : List Nat := [1, 0, 0, 0, 2, 0, 0, 0, 3, 0, 0, 0, 0, 0, 0, 0]

/-- Same first 8 bytes as cb1, different byte at index 8. -/
def cb2 : List Nat := [1, 0, 0, 0, 2, 0, 0, 0, 7, 0, 0, 0, 0, 0, 0, 0]

/-- One full 16-byte record followed by a differing stale byte at index 16. -/
def buf1W : List Nat := List.replicate 16 0 ++ [5]

/-- Same valid 16 bytes as buf1W, different stale byte. -/
def buf2W : List Nat := List.replicate 16 0 ++ [9]

/-- Environment in which select times out. -/
def envTO : Env := { selectRes := 0, selectErrno := 0, readRes := 0, readErrno := 0, readData := [], stale := [] }

/-- Environment in which select reports ready and the read returns 0 bytes. -/
def envZR : Env := { selectRes := 1, selectErrno := 0, readRes := 0, readErrno := 0, readData := [], stale := [] }

/-- Environment in which select fails with errno 13. -/
def envSE : Env := { selectRes := -1, selectErrno := 13, readRes := 0, readErrno := 0, readData := [], stale := [] }

/-- Environment in which select reports ready and the read fails with errno 5. -/
def envRE : Env := { selectRes := 1, selectErrno := 0, readRes := -1, readErrno := 5, readData := [], stale := [] }

/-- A 20-byte wire record with name bytes "hi!". -/
def rdata : List Nat := encodeRecord { wd := 1, mask := 2, cookie := 3, name := [104, 105, 33] }

/-- Environment in which select reports ready and the read returns rdata. -/
def envRD : Env := { selectRes := 1, selectErrno := 0, readRes := 20, readErrno := 0, readData := rdata, stale := [] }

/-- Two well-formed wire records, one with a negative wd and empty name. -/
def rsW : List WireRec :=
  [{ wd := 1, mask := 2, cookie := 3, name := [104, 105] },
   { wd := -1, mask := 2147483647, cookie := 0, name := [] }]

/-- A record whose raw mask and cookie fields both have the high bit set. -/
def bufC10 : List Nat := [0, 0, 0, 0, 0, 0, 0, 128, 0, 0, 0, 128, 0, 0, 0, 0]

/-! ## Basic byte-buffer lemmas -/

theorem byteAt_take (buf : List Nat) (L i : Nat) (h : i < L) :
    byteAt (buf.take L) i = byteAt buf i := by
  simp [byteAt, List.getD_eq_getElem?_getD, List.getElem?_take, h]

theorem byteAt_eq_of_take_eq (buf buf' : List Nat) (L i : Nat) (h : i < L)
    (ht : buf.take L = buf'.take L) : byteAt buf i = byteAt buf' i := by
  rw [← byteAt_take buf L i h, ← byteAt_take buf' L i h, ht]

theorem readU32_eq_of_take_eq (buf buf' : List Nat) (L i : Nat) (h : i + 4 ≤ L)
    (ht : buf.take L = buf'.take L) : readU32 buf i = readU32 buf' i := by
  unfold readU32
  rw [byteAt_eq_of_take_eq buf buf' L i (by omega) ht,
      byteAt_eq_of_take_eq buf buf' L (i + 1) (by omega) ht,
      byteAt_eq_of_take_eq buf buf' L (i + 2) (by omega) ht,
      byteAt_eq_of_take_eq buf buf' L (i + 3) (by omega) ht]

theorem byteAt_append (a b : List Nat) (i : Nat) :
    byteAt (a ++ b) (a.length + i) = byteAt b i := by
  simp [byteAt, List.getD_eq_getElem?_getD, List.getElem?_append_right]

theorem readU32_append (a b : List Nat) (i : Nat) :
    readU32 (a ++ b) (a.length + i) = readU32 b i := by
  unfold readU32
  have e1 : a.length + i + 1 = a.length + (i + 1) := by omega
  have e2 : a.length + i + 2 = a.length + (i + 2) := by omega
  have e3 : a.length + i + 3 = a.length + (i + 3) := by omega
  rw [e1, e2, e3, byteAt_append, byteAt_append, byteAt_append, byteAt_append]

theorem readCStr_append (a b : List Nat) (i : Nat) :
    readCStr (a ++ b) (a.length + i) = readCStr b i := by
  unfold readCStr
  rw [List.drop_append]

theorem drop_cons_byteAt (buf : List Nat) (i : Nat) (h : i < buf.length) :
    buf.drop i = byteAt buf i :: buf.drop (i + 1) := by
  have hb : byteAt buf i = buf[i] := by
    simp [byteAt, List.getD_eq_getElem?_getD, List.getElem?_eq_getElem h]
  rw [List.drop_eq_getElem_cons h, hb]

theorem hasNulWithin_iff (buf : List Nat) (i k : Nat) :
    hasNulWithin buf i k = true ↔ ∃ j, j < k ∧ byteAt buf (i + j) = 0 := by
  simp [hasNulWithin, List.any_eq_true, List.mem_range]

/-! ## Decode-loop lemmas: termination, fuel irrelevance, bounds -/

theorem decodeLoop_stop (buf : List Nat) (L fuel off : Nat) (h : L ≤ off) :
    decodeLoop buf L fuel off = [] := by
  cases fuel with
  | zero => rfl
  | succ f => simp [decodeLoop, Nat.not_lt.mpr h]

theorem decodeLoop_fuel (buf : List Nat) (L : Nat) :
    ∀ f f' off, L - off ≤ f → L - off ≤ f' →
      decodeLoop buf L f off = decodeLoop buf L f' off := by
  intro f
  induction f with
  | zero =>
    intro f' off h _
    rw [decodeLoop_stop buf L 0 off (by omega), decodeLoop_stop buf L f' off (by omega)]
  | succ f ih =>
    intro f' off h h'
    by_cases hoff : off < L
    · obtain ⟨f'', rfl⟩ : ∃ f'', f' = f'' + 1 := by
        cases f' with
        | zero => omega
        | succ k => exact ⟨k, rfl⟩
      simp only [decodeLoop, if_pos hoff]
      congr 1
      exact ih f'' (off + 16 + readU32 buf (off + 12)) (by omega) (by omega)
    · rw [decodeLoop_stop buf L (f + 1) off (by omega),
          decodeLoop_stop buf L f' off (by omega)]

theorem decodeLoop_length (buf : List Nat) (L : Nat) :
    ∀ fuel off, 16 * (decodeLoop buf L fuel off).length ≤ (L - off) + 15 := by
  intro fuel
  induction fuel with
  | zero => intro off; simp [decodeLoop]
  | succ f ih =>
    intro off
    by_cases hoff : off < L
    · have h2 := ih (off + 16 + readU32 buf (off + 12))
      simp only [decodeLoop, if_pos hoff, List.length_cons]
      omega
    · simp [decodeLoop, hoff]

/-! ## Agreement: a fully in-bounds decode reads only the first L bytes -/

theorem cStr_agree :
    ∀ (k : Nat) (buf buf' : List Nat) (L i : Nat),
      L ≤ buf.length → L ≤ buf'.length → buf.take L = buf'.take L →
      i + k ≤ L → (∃ j, j < k ∧ byteAt buf (i + j) = 0) →
      cStr (buf.drop i) = cStr (buf'.drop i) := by
  intro k
  induction k with
  | zero =>
    intro buf buf' L i _ _ _ _ hex
    obtain ⟨j, hj, _⟩ := hex
    omega
  | succ k ih =>
    intro buf buf' L i hL hL' ht hik hex
    have hi : i < L := by omega
    have hbe : byteAt buf i = byteAt buf' i := byteAt_eq_of_take_eq buf buf' L i hi ht
    rw [drop_cons_byteAt buf i (by omega), drop_cons_byteAt buf' i (by omega)]
    by_cases h0 : byteAt buf i = 0
    · have h0' : byteAt buf' i = 0 := by rw [← hbe]; exact h0
      simp [cStr, h0, h0']
    · have h0' : byteAt buf' i ≠ 0 := by rw [← hbe]; exact h0
      have hex' : ∃ j, j < k ∧ byteAt buf (i + 1 + j) = 0 := by
        obtain ⟨j, hj, hz⟩ := hex
        cases j with
        | zero => exact absurd hz h0
        | succ j' =>
          refine ⟨j', by omega, ?_⟩
          have e : i + 1 + j' = i + (j' + 1) := by omega
          rw [e]; exact hz
      simp only [cStr, if_neg h0, if_neg h0']
      rw [hbe]
      congr 1
      exact ih buf buf' L (i + 1) hL hL' ht (by omega) hex'

theorem decodeLoop_agree :
    ∀ (fuel : Nat) (buf buf' : List Nat) (L off : Nat),
      L ≤ buf.length → L ≤ buf'.length → buf.take L = buf'.take L →
      recordsFitLoop buf L fuel off = true →
      decodeLoop buf L fuel off = decodeLoop buf' L fuel off := by
  intro fuel
  induction fuel with
  | zero => intro buf buf' L off _ _ _ _; rfl
  | succ f ih =>
    intro buf buf' L off hL hL' ht hfit
    by_cases hoff : off < L
    · simp only [recordsFitLoop, if_pos hoff, Bool.and_eq_true, Bool.or_eq_true,
        decide_eq_true_eq] at hfit
      obtain ⟨⟨hfits, hnul⟩, hrest⟩ := hfit
      have hw := readU32_eq_of_take_eq buf buf' L off (by omega) ht
      have hm := readU32_eq_of_take_eq buf buf' L (off + 4) (by omega) ht
      have hc := readU32_eq_of_take_eq buf buf' L (off + 8) (by omega) ht
      have hlen := readU32_eq_of_take_eq buf buf' L (off + 12) (by omega) ht
      simp only [decodeLoop, if_pos hoff]
      rw [← hw, ← hm, ← hc, ← hlen]
      congr 1
      · congr 1
        by_cases hz : readU32 buf (off + 12) = 0
        · simp [hz]
        · simp only [if_neg hz]
          rcases hnul with hnul | hnul
          · exact absurd hnul hz
          · obtain ⟨j, hj, hjz⟩ := (hasNulWithin_iff buf (off + 16) (readU32 buf (off + 12))).mp hnul
            unfold readCStr
            exact cStr_agree (readU32 buf (off + 12)) buf buf' L (off + 16) hL hL' ht hfits ⟨j, hj, hjz⟩
      · exact ih buf buf' L (off + 16 + readU32 buf (off + 12)) hL hL' ht hrest
    · rw [decodeLoop_stop buf L (f + 1) off (by omega),
          decodeLoop_stop buf' L (f + 1) off (by omega)]

/-! ## Shift lemma: decoding is invariant under a common prefix -/

theorem decodeLoop_shift :
    ∀ (fuel : Nat) (a b : List Nat) (L off : Nat),
      decodeLoop (a ++ b) (a.length + L) fuel (a.length + off) =
        decodeLoop b L fuel off := by
  intro fuel
  induction fuel with
  | zero => intro a b L off; rfl
  | succ f ih =>
    intro a b L off
    by_cases hoff : off < L
    · have h1 : a.length + off < a.length + L := by omega
      simp only [decodeLoop, if_pos hoff, if_pos h1]
      have e4 : a.length + off + 4 = a.length + (off + 4) := by omega
      have e8 : a.length + off + 8 = a.length + (off + 8) := by omega
      have e12 : a.length + off + 12 = a.length + (off + 12) := by omega
      have e16 : a.length + off + 16 = a.length + (off + 16) := by omega
      rw [e4, e8, e12, e16, readU32_append, readU32_append, readU32_append,
          readU32_append, readCStr_append]
      have eadv : a.length + (off + 16) + readU32 b (off + 12) =
          a.length + (off + 16 + readU32 b (off + 12)) := by omega
      rw [eadv, ih]
    · have h1 : ¬ a.length + off < a.length + L := by omega
      simp only [decodeLoop, if_neg hoff, if_neg h1]

/-! ## Encoder lemmas and the round trip -/

theorem toUInt32_lt (x : Int) : toUInt32 x < 2 ^ 32 := by
  unfold toUInt32; omega

theorem toInt32_toUInt32 (x : Int) (h1 : -2 ^ 31 ≤ x) (h2 : x < 2 ^ 31) :
    toInt32 (toUInt32 x) = x := by
  unfold toInt32 toUInt32
  split <;> omega

theorem readU32_le32 (u : Nat) (t : List Nat) :
    readU32 (le32 u ++ t) 0 = u % 2 ^ 32 := by
  simp [readU32, le32, byteAt]
  omega

theorem readU32_le32_skip (u : Nat) (t : List Nat) (i : Nat) :
    readU32 (le32 u ++ t) (4 + i) = readU32 t i := by
  have h : (4 : Nat) + i = (le32 u).length + i := rfl
  rw [h, readU32_append]

theorem readCStr_le32_skip (u : Nat) (t : List Nat) (i : Nat) :
    readCStr (le32 u ++ t) (4 + i) = readCStr t i := by
  have h : (4 : Nat) + i = (le32 u).length + i := rfl
  rw [h, readCStr_append]

theorem cStr_name (t : List Nat) :
    ∀ name : List Nat, (∀ b ∈ name, 0 < b) → cStr (name ++ 0 :: t) = name := by
  intro name
  induction name with
  | nil => intro _; simp [cStr]
  | cons b bs ih =>
    intro h
    have hb : b ≠ 0 := by
      have := h b (by simp)
      omega
    simp [cStr, hb, ih (fun x hx => h x (by simp [hx]))]

theorem nameLen_lt (name : List Nat) (h : name.length + 1 < 2 ^ 32) :
    nameLen name < 2 ^ 32 := by
  unfold nameLen
  split <;> omega

theorem encodeRecord_length (r : WireRec) :
    (encodeRecord r).length = 16 + nameLen r.name := by
  by_cases h : r.name = []
  · simp [encodeRecord, le32, nameField, nameLen, h]
  · simp [encodeRecord, le32, nameField, nameLen, h]
    omega

theorem readU32_enc_wd (r : WireRec) (t : List Nat) :
    readU32 (encodeRecord r ++ t) 0 = toUInt32 r.wd := by
  simp only [encodeRecord, List.append_assoc]
  rw [readU32_le32]
  exact Nat.mod_eq_of_lt (toUInt32_lt _)

theorem readU32_enc_mask (r : WireRec) (t : List Nat) :
    readU32 (encodeRecord r ++ t) 4 = toUInt32 r.mask := by
  simp only [encodeRecord, List.append_assoc]
  rw [show (4 : Nat) = 4 + 0 from rfl, readU32_le32_skip, readU32_le32]
  exact Nat.mod_eq_of_lt (toUInt32_lt _)

theorem readU32_enc_cookie (r : WireRec) (t : List Nat) :
    readU32 (encodeRecord r ++ t) 8 = toUInt32 r.cookie := by
  simp only [encodeRecord, List.append_assoc]
  rw [show (8 : Nat) = 4 + 4 from rfl, readU32_le32_skip,
      show (4 : Nat) = 4 + 0 from rfl, readU32_le32_skip, readU32_le32]
  exact Nat.mod_eq_of_lt (toUInt32_lt _)

theorem readU32_enc_len (r : WireRec) (t : List Nat) (h : r.name.length + 1 < 2 ^ 32) :
    readU32 (encodeRecord r ++ t) 12 = nameLen r.name := by
  simp only [encodeRecord, List.append_assoc]
  rw [show (12 : Nat) = 4 + 8 from rfl, readU32_le32_skip,
      show (8 : Nat) = 4 + 4 from rfl, readU32_le32_skip,
      show (4 : Nat) = 4 + 0 from rfl, readU32_le32_skip, readU32_le32]
  exact Nat.mod_eq_of_lt (nameLen_lt r.name h)

theorem readCStr_zero (t : List Nat) : readCStr t 0 = cStr t := by
  simp [readCStr]

theorem readCStr_enc_name (r : WireRec) (t : List Nat)
    (hb : ∀ b ∈ r.name, 0 < b) (hne : r.name ≠ []) :
    readCStr (encodeRecord r ++ t) 16 = r.name := by
  simp only [encodeRecord, List.append_assoc]
  rw [show (16 : Nat) = 4 + 12 from rfl, readCStr_le32_skip,
      show (12 : Nat) = 4 + 8 from rfl, readCStr_le32_skip,
      show (8 : Nat) = 4 + 4 from rfl, readCStr_le32_skip,
      show (4 : Nat) = 4 + 0 from rfl, readCStr_le32_skip, readCStr_zero]
  rw [nameField, if_neg hne]
  rw [show (r.name ++ [0]) ++ t = r.name ++ 0 :: t by simp]
  exact cStr_name t r.name hb

theorem decode_encode_aux :
    ∀ (rs : List WireRec) (fuel : Nat), (∀ r ∈ rs, validRec r) → rs.length ≤ fuel →
      decodeLoop (encodeRecords rs) (encodeRecords rs).length fuel 0 =
        rs.map recEvent := by
  intro rs
  induction rs with
  | nil =>
    intro fuel _ _
    rw [show encodeRecords [] = [] from rfl]
    exact decodeLoop_stop _ _ _ _ (by simp)
  | cons r rs ih =>
    intro fuel hval hfuel
    have hlen1 : rs.length + 1 ≤ fuel := by simpa using hfuel
    obtain ⟨f, rfl⟩ : ∃ f, fuel = f + 1 := ⟨fuel - 1, by omega⟩
    obtain ⟨hw1, hw2, hm1, hm2, hc1, hc2, hnl, hnb⟩ := hval r (List.mem_cons_self r rs)
    have henc : encodeRecords (r :: rs) = encodeRecord r ++ encodeRecords rs := by
      simp [encodeRecords]
    rw [henc]
    have h0L : 0 < (encodeRecord r ++ encodeRecords rs).length := by
      rw [List.length_append, encodeRecord_length]; omega
    simp only [decodeLoop, if_pos h0L, Nat.zero_add]
    rw [readU32_enc_wd, readU32_enc_mask, readU32_enc_cookie, readU32_enc_len r _ hnl,
        toInt32_toUInt32 r.wd hw1 hw2, toInt32_toUInt32 r.mask hm1 hm2,
        toInt32_toUInt32 r.cookie hc1 hc2]
    have hname : (if nameLen r.name = 0 then [] else readCStr (encodeRecord r ++ encodeRecords rs) 16) = r.name := by
      by_cases hne : r.name = []
      · simp [nameLen, hne]
      · rw [if_neg (by simp [nameLen, hne]),
            readCStr_enc_name r _ (fun b hbm => (hnb b hbm).1) hne]
    rw [hname]
    have hadv : 16 + nameLen r.name = (encodeRecord r).length + 0 := by
      rw [encodeRecord_length]; omega
    rw [hadv, List.length_append, decodeLoop_shift]
    rw [ih f (fun x hx => hval x (List.mem_cons_of_mem r hx)) (by omega)]
    simp [recEvent]

theorem encodeRecords_length_ge (rs : List WireRec) :
    rs.length ≤ (encodeRecords rs).length := by
  induction rs with
  | nil => simp [encodeRecords]
  | cons r rs ih =>
    have h : encodeRecords (r :: rs) = encodeRecord r ++ encodeRecords rs := by
      simp [encodeRecords]
    rw [h, List.length_append, encodeRecord_length]
    simp only [List.length_cons]
    omega

/-! ## Claim theorems -/

/-- C1, counterexample: the decode loop of get_events does not restrict its
reads to the first length bytes: on a buffer truncated mid-record (length 8,
record header of 16 bytes) it silently decodes a record whose cookie and len
fields come from bytes at indices 8..15, beyond length, and returns a
one-record batch instead of failing with a decode error.  Two buffers that
agree on their first 8 bytes decode differently. -/
theorem c1_counterexample :
    cb1.take 8 = cb2.take 8 ∧
    decodeFrom cb1 8 ≠ decodeFrom cb2 8 ∧
    decodeFrom cb1 8 = [{ wd := 1, mask := 2, cookie := 3, name := [] }] := by
  decide

/-- C1, amended: the decode loop starts a record only when its start offset
is strictly below length, and when every record fits entirely within the
first length bytes (header and NUL-terminated name included,
recordsFitLoop) the decode depends only on those length bytes; but a buffer
truncated mid-record is not rejected: decoding is total and reads the
truncated record's fields from bytes beyond length. -/
theorem c1_decode_reads_within_length :
    (∀ (fuel : Nat) (buf buf' : List Nat) (L off : Nat),
      L ≤ buf.length → L ≤ buf'.length → buf.take L = buf'.take L →
      recordsFitLoop buf L fuel off = true →
      decodeLoop buf L fuel off = decodeLoop buf' L fuel off) ∧
    (∀ (buf : List Nat) (L fuel off : Nat), L ≤ off →
      decodeLoop buf L fuel off = []) :=
  ⟨decodeLoop_agree, decodeLoop_stop⟩

/-- C1, witness: a fully in-bounds 16-byte record decodes identically in two
buffers that agree on the first 16 bytes and differ in a stale byte beyond
them, and the loop yields nothing at an offset past length. -/
theorem c1_decode_reads_within_length_w :
    buf1W.take 16 = buf2W.take 16 ∧
    recordsFitLoop buf1W 16 16 0 = true ∧
    decodeLoop buf1W 16 16 0 = decodeLoop buf2W 16 16 0 ∧
    decodeLoop buf1W 16 16 20 = [] :=
  ⟨by decide, by decide,
   c1_decode_reads_within_length.1 16 buf1W buf2W 16 0 (by decide) (by decide)
     (by decide) (by decide),
   c1_decode_reads_within_length.2 buf1W 16 16 20 (by decide)⟩

/-- C2, counterexample: the error raised when the read returns 0 bytes has
the same Python exception class (IOError) as the errno-carrying errors the
spec calls ResourceError, so it is not a distinct error kind. -/
theorem c2_counterexample :
    (getEvents envZR 3 TimeoutArg.noneArg).1 = PyRes.err bufTooSmallExc ∧
    bufTooSmallExc.typ = (resourceError 13).typ := by
  decide

/-- C2, amended: when the read after readiness returns 0 bytes, get_events
raises IOError with the message "event buffer too small"; this exception has
the same class (IOError) as every resource error, so callers can tell the
two outcomes apart only by the attached message, which differs from the
errno-derived message of every resource error. -/
theorem c2_buffer_too_small_same_kind :
    ∀ (env : Env) (fd : Int) (targ : TimeoutArg) (tp : Option (Int × Int)),
      parseTimeoutArg targ = PyRes.ok tp →
      env.selectRes ≠ -1 → env.selectRes ≠ 0 → env.readRes = 0 →
      (getEvents env fd targ).1 = PyRes.err bufTooSmallExc ∧
      (∀ n, bufTooSmallExc.typ = (resourceError n).typ) ∧
      (∀ n, bufTooSmallExc ≠ resourceError n) := by
  intro env fd targ tp hp h1 h2 h3
  refine ⟨?_, fun n => rfl, fun n h => by simp [bufTooSmallExc, resourceError] at h⟩
  unfold getEvents
  rw [hp]
  simp [h1, h2, h3]

/-- C2, witness: concrete instance with select ready and a zero-byte read. -/
theorem c2_buffer_too_small_same_kind_w :
    parseTimeoutArg TimeoutArg.noneArg = PyRes.ok none ∧
    envZR.selectRes ≠ -1 ∧ envZR.selectRes ≠ 0 ∧ envZR.readRes = 0 ∧
    (getEvents envZR 3 TimeoutArg.noneArg).1 = PyRes.err bufTooSmallExc :=
  ⟨by decide, by decide, by decide, by decide,
   (c2_buffer_too_small_same_kind envZR 3 TimeoutArg.noneArg none (by decide)
     (by decide) (by decide) (by decide)).1⟩

/-- C3: decoding the concatenation of any list of well-formed back-to-back
wire records, at exactly its total length, yields exactly the corresponding
event records in the same order, the empty-name case (len field 0) decoding
to the empty string. -/
theorem c3_round_trip :
    ∀ rs : List WireRec, (∀ r ∈ rs, validRec r) →
      decodeFrom (encodeRecords rs) (encodeRecords rs).length = rs.map recEvent := by
  intro rs h
  unfold decodeFrom
  exact decode_encode_aux rs (encodeRecords rs).length h (encodeRecords_length_ge rs)

/-- C3, witness: a two-record buffer, one record with a name and one with a
negative wd and an empty name, round-trips. -/
theorem c3_round_trip_w :
    (∀ r ∈ rsW, validRec r) ∧
    decodeFrom (encodeRecords rsW) (encodeRecords rsW).length = rsW.map recEvent :=
  ⟨by decide, c3_round_trip rsW (by decide)⟩

/-- C4: whenever select returns 0 (the wait expired with no data ready,
in particular with a zero timeout and nothing pending), get_events returns
the empty event list and raises no error. -/
theorem c4_timeout_empty :
    ∀ (env : Env) (fd : Int) (targ : TimeoutArg) (tp : Option (Int × Int)),
      parseTimeoutArg targ = PyRes.ok tp → env.selectRes = 0 →
      (getEvents env fd targ).1 = PyRes.ok [] := by
  intro env fd targ tp hp h0
  unfold getEvents
  rw [hp]
  simp [h0]

/-- C4, witness: select timing out yields the empty list. -/
theorem c4_timeout_empty_w :
    parseTimeoutArg TimeoutArg.noneArg = PyRes.ok none ∧
    envTO.selectRes = 0 ∧
    (getEvents envTO 3 TimeoutArg.noneArg).1 = PyRes.ok [] :=
  ⟨by decide, by decide,
   c4_timeout_empty envTO 3 TimeoutArg.noneArg none (by decide) (by decide)⟩

/-- C5: evaluation of the code at the failing input.  With the timeout
argument omitted, timeout_o stays NULL, the guard NULL != Py_None takes the
conversion branch, and PyFloat_AsDouble(NULL) raises the PyErr_BadArgument
TypeError: get_events fails before any select is performed, instead of
blocking without a bound.  An explicit None does pass no bound to select; a
float 5/2 passes 2 seconds and 500000 microseconds; and the C casts
truncate toward zero, so -3/2 becomes (-1, -500000) rather than
floor-based (-2, 500000). -/
theorem c5_absent_timeout_type_error :
    getEvents envTO 3 TimeoutArg.absent = (PyRes.err badArgumentExc, []) ∧
    (getEvents envTO 3 TimeoutArg.noneArg).2 = [Sys.sel 4 none] ∧
    (getEvents envTO 3 (TimeoutArg.floatArg (5 / 2))).2 = [Sys.sel 4 (some (2, 500000))] ∧
    timeoutStruct (-3 / 2) = (-1, -500000) := by
  refine ⟨by decide, by decide, ?_, ?_⟩
  · have h : timeoutStruct (5 / 2) = (2, 500000) := by norm_num [timeoutStruct, truncRat]
    simp [getEvents, parseTimeoutArg, h, envTO]
  · norm_num [timeoutStruct, truncRat]

/-- C6: on every call in which select reports the descriptor ready, the
system-call trace contains exactly one read, requesting BUF_LENGTH = 4096
bytes, and whatever event list the call returns is the decode of the
buffer after that single read, cut at the number of bytes it returned. -/
theorem c6_single_read :
    ∀ (env : Env) (fd : Int) (targ : TimeoutArg) (tp : Option (Int × Int)),
      parseTimeoutArg targ = PyRes.ok tp →
      env.selectRes ≠ -1 → env.selectRes ≠ 0 →
      (getEvents env fd targ).2 = [Sys.sel (fd + 1) tp, Sys.rd fd BUF_LENGTH] ∧
      BUF_LENGTH = 4096 ∧
      (∀ evs, (getEvents env fd targ).1 = PyRes.ok evs →
        evs = decodeFrom (afterRead env) env.readRes.toNat) := by
  intro env fd targ tp hp h1 h2
  unfold getEvents
  rw [hp]
  by_cases h3 : env.readRes = -1
  · simp [h1, h2, h3, BUF_LENGTH]
  · by_cases h4 : env.readRes = 0
    · simp [h1, h2, h3, h4, BUF_LENGTH]
    · refine ⟨by simp [h1, h2, h3, h4], rfl, ?_⟩
      intro evs hevs
      simp [h1, h2, h3, h4] at hevs
      exact hevs.symm

/-- C6, witness: a ready descriptor with a 20-byte read gives a trace with
one select and one 4096-byte read. -/
theorem c6_single_read_w :
    parseTimeoutArg TimeoutArg.noneArg = PyRes.ok none ∧
    envRD.selectRes ≠ -1 ∧ envRD.selectRes ≠ 0 ∧
    (getEvents envRD 5 TimeoutArg.noneArg).2 = [Sys.sel 6 none, Sys.rd 5 BUF_LENGTH] :=
  ⟨by decide, by decide, by decide,
   (c6_single_read envRD 5 TimeoutArg.noneArg none (by decide) (by decide)
     (by decide)).1⟩

/-- C7: a failed select (-1) and a failed read (-1) each make get_events
fail with the errno-carrying IOError (the spec's ResourceError), and no
event list is returned. -/
theorem c7_resource_errors :
    ∀ (env : Env) (fd : Int) (targ : TimeoutArg) (tp : Option (Int × Int)),
      parseTimeoutArg targ = PyRes.ok tp →
      (env.selectRes = -1 →
        (getEvents env fd targ).1 = PyRes.err (resourceError env.selectErrno)) ∧
      (env.selectRes ≠ -1 → env.selectRes ≠ 0 → env.readRes = -1 →
        (getEvents env fd targ).1 = PyRes.err (resourceError env.readErrno)) := by
  intro env fd targ tp hp
  constructor
  · intro h1
    unfold getEvents
    rw [hp]
    simp [h1]
  · intro h1 h2 h3
    unfold getEvents
    rw [hp]
    simp [h1, h2, h3]

/-- C7, witness: select failing with errno 13 and a read failing with
errno 5 both surface as the errno-carrying IOError. -/
theorem c7_resource_errors_w :
    envSE.selectRes = -1 ∧
    (getEvents envSE 3 TimeoutArg.noneArg).1 = PyRes.err (resourceError 13) ∧
    envRE.readRes = -1 ∧
    (getEvents envRE 3 TimeoutArg.noneArg).1 = PyRes.err (resourceError 5) :=
  ⟨by decide,
   (c7_resource_errors envSE 3 TimeoutArg.noneArg none (by decide)).1 (by decide),
   by decide,
   (c7_resource_errors envRE 3 TimeoutArg.noneArg none (by decide)).2 (by decide)
     (by decide) (by decide)⟩

/-- C8: add_watch with the mask argument omitted behaves identically to
add_watch with mask IN_ALL_EVENTS: the uint32_t mask variable starts at
IN_ALL_EVENTS and is only overwritten when a third argument is parsed. -/
theorem c8_default_mask :
    ∀ (env : AwEnv) (fd : Int) (path : String),
      addWatch env fd path none = addWatch env fd path (some ((IN_ALL_EVENTS : Nat) : Int)) ∧
      effectiveMask none = IN_ALL_EVENTS := by
  intro env fd path
  constructor
  · unfold addWatch
    rw [show effectiveMask (some ((IN_ALL_EVENTS : Nat) : Int)) = effectiveMask none
      from by decide]
  · rfl

/-- C9: the decode loop terminates on every finite buffer: running it with
any extra fuel beyond L - off returns the same list as with fuel L - off
(the loop reaches the exit condition within that many iterations, because
each iteration advances the cursor by 16 + name_length, at least the
16-byte header), and consequently a buffer of length L yields at most
(L + 15) / 16 records; the third conjunct is the loop's step equation,
advancing the cursor by exactly 16 plus the record's len field. -/
theorem c9_decode_loop_terminates :
    ∀ (buf : List Nat) (L off fuel : Nat),
      decodeLoop buf L ((L - off) + fuel) off = decodeLoop buf L (L - off) off ∧
      16 * (decodeLoop buf L fuel off).length ≤ (L - off) + 15 ∧
      decodeLoop buf L (fuel + 1) off =
        (if off < L then
          { wd := toInt32 (readU32 buf off), mask := toInt32 (readU32 buf (off + 4)),
            cookie := toInt32 (readU32 buf (off + 8)),
            name := if readU32 buf (off + 12) = 0 then [] else readCStr buf (off + 16) } ::
          decodeLoop buf L fuel (off + 16 + readU32 buf (off + 12))
        else []) := by
  intro buf L off fuel
  exact ⟨decodeLoop_fuel buf L ((L - off) + fuel) (L - off) off (by omega) (by omega),
    decodeLoop_length buf L fuel off, rfl⟩

/-- C10: every decoded record exposes the raw 32-bit mask and cookie wire
fields through toInt32, the two's-complement reinterpretation as a signed
32-bit integer, and for any wire value with the high bit set that
reinterpretation is the negative value raw - 2^32, while values below 2^31
pass through unchanged. -/
theorem c10_sign_reinterpretation :
    ∀ (buf : List Nat) (L off fuel : Nat), off < L →
      (decodeLoop buf L (fuel + 1) off).head? = some
        { wd := toInt32 (readU32 buf off), mask := toInt32 (readU32 buf (off + 4)),
          cookie := toInt32 (readU32 buf (off + 8)),
          name := if readU32 buf (off + 12) = 0 then [] else readCStr buf (off + 16) } ∧
      (∀ u, 2 ^ 31 ≤ u → u < 2 ^ 32 → toInt32 u = (u : Int) - 2 ^ 32 ∧ toInt32 u < 0) ∧
      (∀ u, u < 2 ^ 31 → toInt32 u = (u : Int)) := by
  intro buf L off fuel h
  refine ⟨by simp [decodeLoop, h], ?_, ?_⟩
  · intro u h1 h2
    have hn : ¬ u < 2 ^ 31 := by omega
    unfold toInt32
    rw [if_neg hn]
    omega
  · intro u h1
    unfold toInt32
    rw [if_pos h1]

/-- C10, witness: a record whose raw mask and cookie fields are 2^31
decodes with mask and cookie equal to -2^31. -/
theorem c10_sign_reinterpretation_w :
    (0 : Nat) < 16 ∧
    (decodeLoop bufC10 16 (0 + 1) 0).head? = some
      { wd := toInt32 (readU32 bufC10 0), mask := toInt32 (readU32 bufC10 (0 + 4)),
        cookie := toInt32 (readU32 bufC10 (0 + 8)),
        name := if readU32 bufC10 (0 + 12) = 0 then [] else readCStr bufC10 (0 + 16) } ∧
    toInt32 (readU32 bufC10 (0 + 8)) = -2147483648 ∧
    toInt32 (readU32 bufC10 (0 + 4)) = -2147483648 :=
  ⟨by decide, (c10_sign_reinterpretation bufC10 16 0 0 (by decide)).1,
   by decide, by decide⟩

end Inotify
